import Mathlib

/-!
Verification development for the Cloudshelf versioning GitHub action.

The definitions below are a shallow embedding of the action's TypeScript
source (`src/main.ts`, current revision): the version-string parser
`extractVersionInfo`, the release-catalog pagination loop, baseline
selection, the development bump calculator, the rc ordinal, the changelog
generator, and the overall `run` control flow modelled as an event trace.
Timestamps are modelled as `Option Int`: `some t` is a finite epoch value
produced by `Date.parse`, `none` is `NaN` (every comparison with `NaN` is
false, exactly as in JavaScript).
-/

/-- Leading and trailing whitespace removal: JavaScript `trim()`. -/
def trimList (l : List Char) : List Char :=
  ((l.dropWhile Char.isWhitespace).reverse.dropWhile Char.isWhitespace).reverse

/-- Normalisation applied by the source before every prefix test:
`message.trim().toLowerCase()`. -/
def normMsg (m : String) : String :=
  String.mk ((trimList m.toList).map Char.toLower)

/-- JavaScript `s.startsWith(pre)`. -/
def startsWithS (s pre : String) : Bool := pre.toList.isPrefixOf s.toList

/-- JavaScript `s.substring(0, n)` (the source only ever applies it to
7-character hash prefixes). -/
def takeChars (s : String) (n : Nat) : String := String.mk (s.toList.take n)

/-- Case-insensitive hex-digit test: the source character class `[a-f0-9]`
under the regex `i` flag. -/
def isHexCI (c : Char) : Bool := c.toLower.isDigit || ('a' ≤ c.toLower && c.toLower ≤ 'f')

/-- Model of the TypeScript `VersionInfo` record.  `releaseType` is kept as a
raw string because the source stores the *captured* text (case preserved)
and later compares it with string equality. -/
structure VersionInfo where
  major : Nat
  minor : Nat
  patch : Nat
  releaseType : String
  releaseCandidate : Option Nat
  hash : Option String
deriving DecidableEq, Repr

/-- Capture groups of the source regex
`/^v(\d+).(\d+).(\d+)(-((development)|((rc).(\d+)))\+([a-f0-9]+))?$/gims`
that the source actually reads (groups 1, 2, 3, 5, 8, 9, 10). -/
structure RegexGroups where
  major : List Char
  minor : List Char
  patch : List Char
  g5 : Option (List Char)
  g8 : Option (List Char)
  g9 : Option (List Char)
  g10 : Option (List Char)
deriving DecidableEq, Repr

/-- All splits of `l` into a non-empty prefix of characters satisfying `f`
and a remainder, enumerated longest-first: the greedy backtracking order of
`(\d+)` and `([a-f0-9]+)`. -/
def greedySplits (f : Char → Bool) (l : List Char) : List (List Char × List Char) :=
  let n := (l.takeWhile f).length
  (List.range n).map (fun i => (l.take (n - i), l.drop (n - i)))

/-- The single split consuming one arbitrary character: the unescaped `.`
of the source regex (under the `s` flag it also matches a newline). -/
def anySplit : List Char → List (Char × List Char)
  | [] => []
  | c :: cs => [(c, cs)]

/-- Case-insensitive literal match (regex `i` flag): returns the raw
captured characters and the remainder. -/
def stripCI : List Char → List Char → Option (List Char × List Char)
  | [], l => some ([], l)
  | _ :: _, [] => none
  | p :: ps, c :: cs =>
    if c.toLower = p then
      match stripCI ps cs with
      | some (cap, r) => some (c :: cap, r)
      | none => none
    else none

/-- A candidate match of the suffix alternation
`((development)|((rc).(\d+)))` with its captures and remainder. -/
structure AltCand where
  g5 : List Char
  g8 : Option (List Char)
  g9 : Option (List Char)
  rest : List Char
deriving DecidableEq, Repr

def devPat : List Char := "development".toList

def rcPat : List Char := ['r', 'c']

/-- Candidates for the alternation `((development)|((rc).(\d+)))` in the
regex backtracking preference order (left alternative first). -/
def matchAlt (l : List Char) : List AltCand :=
  (match stripCI devPat l with
   | some (cap, r) => [⟨cap, none, none, r⟩]
   | none => []) ++
  (match stripCI rcPat l with
   | some (rcCap, r1) =>
     (anySplit r1).flatMap fun pr =>
       (greedySplits Char.isDigit pr.2).map fun dr =>
         ⟨rcCap ++ pr.1 :: dr.1, some rcCap, some dr.1, dr.2⟩
   | none => [])

/-- A candidate match of the whole optional suffix
`-((development)|((rc).(\d+)))\+([a-f0-9]+)`. -/
structure SufCand where
  g5 : List Char
  g8 : Option (List Char)
  g9 : Option (List Char)
  g10 : List Char
  rest : List Char
deriving DecidableEq, Repr

/-- Candidates for the hex tail `\+([a-f0-9]+)` after an alternation
candidate. -/
def matchTail (a : AltCand) : List SufCand :=
  match a.rest with
  | [] => []
  | c2 :: r2 =>
    if c2 = '+' then
      (greedySplits isHexCI r2).map fun hr => ⟨a.g5, a.g8, a.g9, hr.1, hr.2⟩
    else []

/-- Candidates for the suffix group, preference ordered. -/
def matchSuffix (l : List Char) : List SufCand :=
  match l with
  | [] => []
  | c :: r => if c = '-' then (matchAlt r).flatMap matchTail else []

/-- End-of-match test for `$` under the `m` flag: end of input or a newline
immediately follows. -/
def lineEndB : List Char → Bool
  | [] => true
  | c :: _ => c = '\n'

/-- All matches of the regex body anchored at the head of `l`, in the
backtracking preference order (suffix-present candidates before the empty
suffix, because `(...)?` is greedy). -/
def coreMatches (l : List Char) : List RegexGroups :=
  match l with
  | [] => []
  | vc :: r0 =>
    if vc.toLower = 'v' then
      (greedySplits Char.isDigit r0).flatMap fun m1 =>
      (anySplit m1.2).flatMap fun s1 =>
      (greedySplits Char.isDigit s1.2).flatMap fun m2 =>
      (anySplit m2.2).flatMap fun s2 =>
      (greedySplits Char.isDigit s2.2).flatMap fun m3 =>
        ((matchSuffix m3.2).filter (fun sc => lineEndB sc.rest)).map
          (fun sc => ⟨m1.1, m2.1, m3.1, some sc.g5, sc.g8, sc.g9, some sc.g10⟩)
        ++ (if lineEndB m3.2 then [⟨m1.1, m2.1, m3.1, none, none, none, none⟩] else [])
    else []

def lineStartsGo : List Char → List (List Char)
  | [] => []
  | c :: cs => if c = '\n' then cs :: lineStartsGo cs else lineStartsGo cs

/-- Positions where `^` can match under the `m` flag (start of input or
just after a newline), as the suffixes starting there, left to right. -/
def lineStarts (l : List Char) : List (List Char) := l :: lineStartsGo l

/-- The first (leftmost, preference-ordered) match of the source regex. -/
def regexMatch (l : List Char) : Option RegexGroups :=
  ((lineStarts l).flatMap coreMatches).head?

/-- `parseInt` on a digit string. -/
def parseNatDigits (l : List Char) : Nat :=
  l.foldl (fun a c => a * 10 + (c.toNat - 48)) 0

/-- The record the source builds from the match:
`releaseType = match[8] ?? match[5] ?? "production"`,
`releaseCandidate = parseInt(match[9])` (`NaN`, i.e. `none`, without a
suffix), `hash = match[10]`. -/
def groupsToInfo (g : RegexGroups) : VersionInfo :=
  { major := parseNatDigits g.major
    minor := parseNatDigits g.minor
    patch := parseNatDigits g.patch
    releaseType :=
      match g.g8 with
      | some t => String.mk t
      | none =>
        match g.g5 with
        | some t => String.mk t
        | none => "production"
    releaseCandidate := g.g9.map parseNatDigits
    hash := g.g10.map String.mk }

/-- Model of the source `extractVersionInfo`. -/
def extractVersionInfo (s : String) : Option VersionInfo :=
  (regexMatch s.toList).map groupsToInfo

example : extractVersionInfo "v1.2.3" =
    some ⟨1, 2, 3, "production", none, none⟩ := by decide

example : extractVersionInfo "v1.2.3-rc.4+ab" =
    some ⟨1, 2, 3, "rc", some 4, some "ab"⟩ := by decide

example : extractVersionInfo "v10.0.7-development+abc1f23" =
    some ⟨10, 0, 7, "development", none, some "abc1f23"⟩ := by decide

example : extractVersionInfo "1.2.3" = none := by decide

example : extractVersionInfo "v1.2.3-rc.4" = none := by decide

example : extractVersionInfo "v1a2b3" =
    some ⟨1, 2, 3, "production", none, none⟩ := by decide

/-! ## The language of the source regex, stated independently

`CoreLang` spells out, as a plain existential decomposition, which
character lists the regex body accepts: a case-insensitive `v`, three
digit runs separated by *arbitrary single characters* (the unescaped
dots), an optional `-development+hex` / `-rc<any><digits>+hex` suffix
(keywords and hex case-insensitive), ending at the end of the input or
just before a newline.  `MatchesGrammar` adds the `m`-flag anchoring: the
match may start at the beginning of the string or directly after any
newline. -/

def DigitStr (d : List Char) : Prop := d ≠ [] ∧ ∀ c ∈ d, c.isDigit = true

def DevBody (b : List Char) : Prop := b.map Char.toLower = devPat

def RcBody (b : List Char) : Prop :=
  ∃ rcCap c d, b = rcCap ++ c :: d ∧ rcCap.map Char.toLower = rcPat ∧ DigitStr d

def AltLang (b : List Char) : Prop := DevBody b ∨ RcBody b

def HexStr (h : List Char) : Prop := h ≠ [] ∧ ∀ c ∈ h, isHexCI c = true

def SuffixLang (suf : List Char) : Prop :=
  ∃ b h, suf = '-' :: (b ++ '+' :: h) ∧ AltLang b ∧ HexStr h

def CoreLang (l : List Char) : Prop :=
  ∃ (vc c1 c2 : Char) (maj mi pa suf rest : List Char),
    l = vc :: (maj ++ c1 :: (mi ++ c2 :: (pa ++ suf ++ rest))) ∧
    vc.toLower = 'v' ∧ DigitStr maj ∧ DigitStr mi ∧ DigitStr pa ∧
    (suf = [] ∨ SuffixLang suf) ∧ lineEndB rest = true

def MatchesGrammar (s : String) : Prop :=
  ∃ x, (s.toList = x ∨ ∃ pre, s.toList = pre ++ '\n' :: x) ∧ CoreLang x

/-! ## Release catalog and pagination (`getReleases`) -/

/-- A release node as the release query returns it: `name` and the tag
commit can be absent.  `updatedAt` and `tagAuthoredDate` are the
`Date.parse` images of the wire strings (`none` = unparseable = `NaN`). -/
structure ReleaseNode where
  name : Option String
  updatedAt : Option Int
  tagAuthoredDate : Option Int
  tagOid : Option String
  isDraft : Bool
deriving DecidableEq, Repr

/-- One page of the paginated release query.  `edges` holds `none` for a
null edge or a null node (both are dropped identically by the source). -/
structure PageResp where
  hasErrors : Bool
  edges : List (Option ReleaseNode)
  endCursor : Option String
  hasNextPage : Bool
deriving DecidableEq, Repr

/-- Model of the source `UsefulReleaseData`. -/
structure UsefulReleaseData where
  name : String
  versionInfo : VersionInfo
  releaseDate : Option Int
  tagDate : Option Int
  sha : String
  isDraft : Bool
deriving DecidableEq, Repr

/-- Events the modelled `run` emits, in order: a network request, a
`core.setFailed` call, or a `core.setOutput` call. -/
inductive Event where
  | netCall : String → Event
  | failedMsg : String → Event
  | log : String → Event
  | output : String → String → Event
deriving DecidableEq, Repr

/-- The `do … while (hasNextPage)` pagination loop of `getReleases`.  The
input list is the sequence of responses the upstream serves; one response
is consumed per fetch.  The result is the emitted events paired with
`some nodes` when the loop finishes (an error payload makes the source
call `setFailed` and return the *empty* list to its caller, which keeps
running), or `none` when the responses ran out while the last page still
said `hasNextPage` — i.e. the loop has just issued yet another fetch. -/
def getReleasesRun : List PageResp → (List Event × Option (List ReleaseNode))
  | [] => ([Event.netCall "GetReleases"], none)
  | p :: rest =>
    if p.hasErrors then
      ([Event.netCall "GetReleases",
        Event.failedMsg "Workflow failed! Error getting previous releases"], some [])
    else
      let nodes := p.edges.filterMap id
      if p.hasNextPage then
        let next := getReleasesRun rest
        (Event.netCall "GetReleases" :: next.1, next.2.map (nodes ++ ·))
      else ([Event.netCall "GetReleases"], some nodes)

/-- The mapping from accumulated edges to `UsefulReleaseData`: parse
`node.name ?? ""`; nodes whose name fails the grammar are dropped. -/
def buildCatalog (nodes : List ReleaseNode) : List UsefulReleaseData :=
  nodes.filterMap fun n =>
    match extractVersionInfo (n.name.getD "") with
    | some vi =>
      some ⟨n.name.getD "", vi, n.updatedAt, n.tagAuthoredDate,
        (n.tagOid.getD ""), n.isDraft⟩
    | none => none

/-! ## Baseline selection -/

/-- `Date.parse(d) <= t` with JavaScript `NaN` semantics: false when the
date string did not parse. -/
def optLe (d : Option Int) (t : Int) : Bool :=
  match d with
  | some v => v ≤ t
  | none => false

def zeroProdBaseline : UsefulReleaseData :=
  ⟨"", ⟨0, 0, 0, "production", none, none⟩, none, none, "", false⟩

def zeroDevBaseline : UsefulReleaseData :=
  ⟨"", ⟨0, 0, 0, "development", none, none⟩, none, none, "", false⟩

/-- The `_.find` predicate for the production baseline: published at or
before the triggering timestamp, parsed type production, not a draft. -/
def prodBaselinePred (date : Int) (r : UsefulReleaseData) : Bool :=
  optLe r.releaseDate date && r.versionInfo.releaseType == "production" && !r.isDraft

/-- The `_.find` predicate for the development baseline: the *tag commit's
authored time* at or before the triggering timestamp, parsed type
development, not a draft. -/
def devBaselinePred (date : Int) (r : UsefulReleaseData) : Bool :=
  optLe r.tagDate date && r.versionInfo.releaseType == "development" && !r.isDraft

/-- `lastProductionRelease` of the source: first qualifying release in
catalog order, else the synthetic zero baseline. -/
def lastProductionRelease (releases : List UsefulReleaseData) (date : Int) :
    UsefulReleaseData :=
  (releases.find? (prodBaselinePred date)).getD zeroProdBaseline

/-- `lastDevRelease` of the source: first qualifying release in catalog
order, else the synthetic zero baseline. -/
def lastDevRelease (releases : List UsefulReleaseData) (date : Int) :
    UsefulReleaseData :=
  (releases.find? (devBaselinePred date)).getD zeroDevBaseline

/-! ## Development bump -/

/-- The mutable `hasPatch` / `hasMinor` / `hasMajor` booleans. -/
structure BumpFlags where
  hasPatch : Bool
  hasMinor : Bool
  hasMajor : Bool
deriving DecidableEq, Repr

/-- One iteration of the `_.map(historyDev, …)` scan: three independent
`if`s over the trimmed, lower-cased message, each testing colonless
prefixes. -/
def scanCommit (f : BumpFlags) (msg : String) : BumpFlags :=
  let m := normMsg msg
  let f1 :=
    if startsWithS m "fix" || startsWithS m "chore" || startsWithS m "refactor" ||
        startsWithS m "task" then
      { f with hasPatch := true }
    else f
  let f2 := if startsWithS m "feat" then { f1 with hasMinor := true } else f1
  if startsWithS m "breaking" then { f2 with hasMajor := true } else f2

def scanCommits (msgs : List String) : BumpFlags :=
  msgs.foldl scanCommit ⟨false, false, false⟩

/-- The `if (hasMajor) … else if (hasMinor) … else if (hasPatch)` cascade. -/
def bumpVersion (old : Nat × Nat × Nat) (f : BumpFlags) : Nat × Nat × Nat :=
  if f.hasMajor then (old.1 + 1, 0, 0)
  else if f.hasMinor then (old.1, old.2.1 + 1, 0)
  else if f.hasPatch then (old.1, old.2.1, old.2.2 + 1)
  else old

/-! ## rc ordinal -/

/-- The rc-counting window of the source:
`r.releaseDate > Date.parse(lastProductionRelease?.releaseDate ?? "") &&
r.releaseDate <= date + 1`, with `NaN` comparisons false. -/
def rcWindow (rd prodDate : Option Int) (date : Int) : Bool :=
  match rd, prodDate with
  | some r, some p => p < r && r ≤ date + 1
  | some _, none => false
  | none, _ => false

/-- The filtered rc count: re-parse each catalog name, keep parsed type
`"rc"` inside the window. -/
def rcCount (releases : List UsefulReleaseData) (prodDate : Option Int) (date : Int) :
    Nat :=
  (releases.filter fun r =>
    match extractVersionInfo r.name with
    | some vi => vi.releaseType == "rc" && rcWindow r.releaseDate prodDate date
    | none => false).length

def rcMetadata (releases : List UsefulReleaseData) (prodDate : Option Int)
    (date : Int) (sha : String) : String :=
  "-rc." ++ toString (rcCount releases prodDate date + 1) ++ "+" ++ takeChars sha 7

/-! ## Changelog (`generateChangelog`, current revision) -/

/-- One section's entries: filter by a trimmed lower-cased literal prefix,
render each as `- <original message>`. -/
def sectionEntries (tok : String) (msgs : List String) : List String :=
  (msgs.filter fun m => startsWithS (normMsg m) tok).map (fun m => "- " ++ m)

/-- `_.join(l, "\n")`. -/
def joinNL : List String → String
  | [] => ""
  | [x] => x
  | x :: xs => x ++ "\n" ++ joinNL xs

/-- The six section checks of one half of `generateChangelog`; both halves
set their `any…Changes` boolean from exactly these conditions. -/
def anyChanges (msgs : List String) : Bool :=
  !(sectionEntries "breaking:" msgs).isEmpty || !(sectionEntries "feat:" msgs).isEmpty ||
  !(sectionEntries "fix:" msgs).isEmpty || !(sectionEntries "chore:" msgs).isEmpty ||
  !(sectionEntries "task:" msgs).isEmpty || !(sectionEntries "refactor:" msgs).isEmpty

/-- The concatenated sections of one half of `generateChangelog`.  The
Tasks section reproduces the source as written: its guard tests the task
list but its body joins the *chore* list. -/
def changelogBody (msgs : List String) : String :=
  (if (sectionEntries "breaking:" msgs).isEmpty then ""
   else "## Breaking Changes\n" ++ joinNL (sectionEntries "breaking:" msgs) ++ "\n") ++
  (if (sectionEntries "feat:" msgs).isEmpty then ""
   else "### New Features\n" ++ joinNL (sectionEntries "feat:" msgs) ++ "\n") ++
  (if (sectionEntries "fix:" msgs).isEmpty then ""
   else "### Bug Fixes\n" ++ joinNL (sectionEntries "fix:" msgs) ++ "\n") ++
  (if (sectionEntries "chore:" msgs).isEmpty then ""
   else "### Chores\n" ++ joinNL (sectionEntries "chore:" msgs) ++ "\n") ++
  (if (sectionEntries "task:" msgs).isEmpty then ""
   else "### Tasks\n" ++ joinNL (sectionEntries "chore:" msgs) ++ "\n") ++
  (if (sectionEntries "refactor:" msgs).isEmpty then ""
   else "### Refactors\n" ++ joinNL (sectionEntries "refactor:" msgs) ++ "\n")

def fallbackLine : String := "General bug fixes and improvements\n"

/-- Model of the source `generateChangelog(releaseType, devMsgs, prodMsgs)`. -/
def generateChangelog (rt : String) (devMsgs prodMsgs : List String) : String :=
  (if rt == "development" then
    "# Changes since last development release\n\n" ++ changelogBody devMsgs ++
      (if anyChanges devMsgs then "" else fallbackLine) ++ "\n"
   else "") ++
  (if rt != "production" then "# All changes since last production release\n\n" else "") ++
  changelogBody prodMsgs ++
  (if anyChanges prodMsgs then "" else fallbackLine)

/-! ## The whole `run` as an event trace -/

/-- The run context read from the process environment and the action
inputs.  `GITHUB_TOKEN` resolution is `env ?? input`; action inputs are
never nullish, so an unset input is the empty string. -/
structure RunEnv where
  dryRun : Bool
  githubRef : Option String
  githubSha : Option String
  githubTokenEnv : Option String
  githubTokenInput : String
  releaseTypeEnv : Option String
  releaseTypeInput : String
deriving DecidableEq, Repr

/-- The responses the external collaborators serve to this run:
the release pages, the triggering commit lookup, and the two
`compareCommits` ranges (each `Except` error models a thrown request,
caught by the top-level handler). -/
structure RunWorld where
  releasePages : List PageResp
  commitDate : Except String Int
  compareDevMsgs : Except String (List String)
  compareProdMsgs : Except String (List String)
deriving Repr

def resolveToken (env : RunEnv) : String :=
  env.githubTokenEnv.getD env.githubTokenInput

/-- `process.env.RELEASE_TYPE ?? core.getInput("release_type") ?? "development"`:
the final `?? "development"` is dead because `getInput` never returns a
nullish value. -/
def resolveReleaseType (env : RunEnv) : String :=
  env.releaseTypeEnv.getD env.releaseTypeInput

/-- JavaScript `"… ".replace("+", "-")`: first occurrence only. -/
def replacePlusList : List Char → List Char
  | [] => []
  | c :: cs => if c = '+' then '-' :: cs else c :: replacePlusList cs

def replaceFirstPlus (s : String) : String := String.mk (replacePlusList s.toList)

/-- JavaScript `newVersion.replace("v", "")`: first occurrence only. -/
def stripFirstVList : List Char → List Char
  | [] => []
  | c :: cs => if c = 'v' then cs else c :: stripFirstVList cs

def stripFirstV (s : String) : String := String.mk (stripFirstVList s.toList)

/-- Renders a numeric triple the way the source interpolates it. -/
def vstr (t : Nat × Nat × Nat) : String :=
  "v" ++ toString t.1 ++ "." ++ toString t.2.1 ++ "." ++ toString t.2.2

def versionNumberString (vi : VersionInfo) : String :=
  vstr (vi.major, vi.minor, vi.patch)

/-- The pure tail of `run` once the catalog, timestamp and the two commit
ranges are in hand: version computation, outputs, and the non-dry-run
platform writes. -/
def runCompute (env : RunEnv) (releases : List UsefulReleaseData) (date : Int)
    (sha : String) (historyDev historyProd : List String) : List Event :=
  let releaseType := resolveReleaseType env
  let lastProd := lastProductionRelease releases date
  let lastDev := lastDevRelease releases date
  let vi := lastDev.versionInfo
  let pair :=
    if releaseType == "development" then
      let flags := scanCommits historyDev
      let v := bumpVersion (vi.major, vi.minor, vi.patch) flags
      (vstr v, "-development+" ++ takeChars sha 7)
    else if releaseType == "rc" then
      (versionNumberString vi, rcMetadata releases lastProd.releaseDate date sha)
    else (versionNumberString vi, "")
  let complete := pair.1 ++ pair.2
  [Event.log (generateChangelog releaseType historyDev historyProd),
   Event.output "version" complete,
   Event.output "normalisedVersion" (replaceFirstPlus complete),
   Event.output "versionNumber" (stripFirstV pair.1)] ++
  (if env.dryRun then []
   else [Event.netCall "createTag", Event.netCall "createRef",
         Event.netCall "createRelease", Event.netCall "slackUpload"])

/-- Model of the whole `run()` of the current revision as the sequence of
observable events it performs on the given environment and world. -/
def run (env : RunEnv) (world : RunWorld) : List Event :=
  match env.githubRef with
  | none => [Event.failedMsg "Missing GITHUB_REF"]
  | some _ =>
    match env.githubSha with
    | none => [Event.failedMsg "Missing GITHUB_SHA"]
    | some sha =>
      if resolveToken env == "" then [Event.failedMsg "Missing GITHUB_TOKEN"]
      else
        let rel := getReleasesRun world.releasePages
        match rel.2 with
        | none => rel.1
        | some nodes =>
          let releases := buildCatalog nodes
          rel.1 ++ [Event.netCall "getCommit"] ++
          match world.commitDate with
          | Except.error msg => [Event.failedMsg ("Workflow failed! " ++ msg)]
          | Except.ok date =>
            [Event.netCall "compareCommits"] ++
            match world.compareDevMsgs with
            | Except.error msg => [Event.failedMsg ("Workflow failed! " ++ msg)]
            | Except.ok historyDev =>
              [Event.netCall "compareCommits"] ++
              match world.compareProdMsgs with
              | Except.error msg => [Event.failedMsg ("Workflow failed! " ++ msg)]
              | Except.ok historyProd =>
                runCompute env releases date sha historyDev historyProd

/-! ## Predicates extracted verbatim from the bump scan's conditions -/

/-- The patch-level condition of the bump scan (prefixes *without* a
colon). -/
def patchPrefixB (m : String) : Bool :=
  startsWithS (normMsg m) "fix" || startsWithS (normMsg m) "chore" ||
    startsWithS (normMsg m) "refactor" || startsWithS (normMsg m) "task"

def minorPrefixB (m : String) : Bool := startsWithS (normMsg m) "feat"

def majorPrefixB (m : String) : Bool := startsWithS (normMsg m) "breaking"

/-- Lexicographic order on (major, minor, patch). -/
def lexLe (a b : Nat × Nat × Nat) : Prop :=
  a.1 < b.1 ∨ (a.1 = b.1 ∧ (a.2.1 < b.2.1 ∨ (a.2.1 = b.2.1 ∧ a.2.2 ≤ b.2.2)))

/-! ## Concrete scenario data used by witnesses and counterexamples -/

/-- A published development release `v1.2.3-development+aaaaaaa`. -/
def devNode : ReleaseNode :=
  ⟨some "v1.2.3-development+aaaaaaa", some 20, some 10, some "devsha", false⟩

/-- A published production release `v1.0.0`. -/
def prodNode : ReleaseNode :=
  ⟨some "v1.0.0", some 5, some 4, some "prodsha", false⟩

/-- An rc release `v1.2.3-rc.1+bbbbbbb` whose releaseDate is one
millisecond *after* the triggering timestamp used in the rc scenario. -/
def rcNode : ReleaseNode :=
  ⟨some "v1.2.3-rc.1+bbbbbbb", some 101, some 90, some "rcsha", false⟩

def envDev : RunEnv :=
  { dryRun := true
    githubRef := some "refs/heads/development"
    githubSha := some "abcdef1234"
    githubTokenEnv := some "tok"
    githubTokenInput := ""
    releaseTypeEnv := some "development"
    releaseTypeInput := "" }

def worldDev : RunWorld :=
  { releasePages := [⟨false, [some devNode, some prodNode], none, false⟩]
    commitDate := Except.ok 100
    compareDevMsgs := Except.ok ["fix: a", "feat: b", "chore: c"]
    compareProdMsgs := Except.ok ["fix: a", "feat: b", "chore: c"] }

def envRc : RunEnv :=
  { dryRun := true
    githubRef := some "refs/heads/qa"
    githubSha := some "abcdef1234"
    githubTokenEnv := some "tok"
    githubTokenInput := ""
    releaseTypeEnv := some "rc"
    releaseTypeInput := "" }

def worldRc : RunWorld :=
  { releasePages := [⟨false, [some devNode, some rcNode, some prodNode], none, false⟩]
    commitDate := Except.ok 100
    compareDevMsgs := Except.ok []
    compareProdMsgs := Except.ok [] }

/-- Environment with every required item present except the channel:
`RELEASE_TYPE` unset and the `release_type` input unset (empty string). -/
def envNoChannel : RunEnv :=
  { dryRun := true
    githubRef := some "refs/heads/development"
    githubSha := some "abcdef1234"
    githubTokenEnv := some "tok"
    githubTokenInput := ""
    releaseTypeEnv := none
    releaseTypeInput := "" }

def worldNoChannel : RunWorld :=
  { releasePages := [⟨false, [some prodNode], none, false⟩]
    commitDate := Except.ok 100
    compareDevMsgs := Except.ok []
    compareProdMsgs := Except.ok [] }

/-- Environment for the release-fetch-error scenario (production channel,
not a dry run). -/
def envFetchErr : RunEnv :=
  { dryRun := false
    githubRef := some "refs/heads/production"
    githubSha := some "abcdef1234"
    githubTokenEnv := some "tok"
    githubTokenInput := ""
    releaseTypeEnv := some "production"
    releaseTypeInput := "" }

/-- World whose very first release page carries an error payload while
every later request succeeds. -/
def worldFetchErr : RunWorld :=
  { releasePages := [⟨true, [], none, false⟩]
    commitDate := Except.ok 0
    compareDevMsgs := Except.ok []
    compareProdMsgs := Except.ok [] }

/-- A page that reports `hasNextPage = true` with zero edges and an
unchanged cursor. -/
def stallPage : PageResp := ⟨false, [], some "cursorA", true⟩

/-- Release catalog used by the baseline-selection witness: two
production releases and one development release, catalogued in
descending releaseDate order. -/
def prodRelNew : UsefulReleaseData :=
  ⟨"v2.0.0", ⟨2, 0, 0, "production", none, none⟩, some 50, some 48, "p2", false⟩

def devRelMid : UsefulReleaseData :=
  ⟨"v2.1.0-development+abc1234", ⟨2, 1, 0, "development", none, some "abc1234"⟩,
    some 40, some 39, "d1", false⟩

def prodRelOld : UsefulReleaseData :=
  ⟨"v1.0.0", ⟨1, 0, 0, "production", none, none⟩, some 30, some 29, "p1", false⟩

def catalogW : List UsefulReleaseData := [prodRelNew, devRelMid, prodRelOld]

/-- Environment with `GITHUB_REF` missing. -/
def envNoRef : RunEnv :=
  { dryRun := true
    githubRef := none
    githubSha := some "abcdef1234"
    githubTokenEnv := some "tok"
    githubTokenInput := ""
    releaseTypeEnv := some "development"
    releaseTypeInput := "" }

/-- First page of the pagination witness scenario: two edges, more pages. -/
def pageA : PageResp := ⟨false, [some devNode, some prodNode], some "c1", true⟩

/-- Second page: two edges of which one is null, more pages. -/
def pageB : PageResp := ⟨false, [some rcNode, none], some "c2", true⟩

/-- Final page: zero edges, no further pages. -/
def pageC : PageResp := ⟨false, [], some "c2", false⟩

/-! # Lemmas -/

/-! ## Regex matcher: enumeration lemmas -/

lemma takeWhile_append_of_all {f : Char → Bool} {d : List Char} (r : List Char)
    (h : ∀ c ∈ d, f c = true) : ((d ++ r).takeWhile f) = d ++ r.takeWhile f := by
  induction d with
  | nil => simp
  | cons a d ih =>
    simp only [List.cons_append, List.takeWhile]
    rw [h a (by simp)]
    simp [ih (fun c hc => h c (by simp [hc]))]

lemma mem_take_takeWhile_sat {f : Char → Bool} :
    ∀ (l : List Char) (k : Nat), k ≤ (l.takeWhile f).length →
      ∀ c ∈ l.take k, f c = true := by
  intro l
  induction l with
  | nil => intro k _ c hc; simp at hc
  | cons a l ih =>
    intro k hk c hc
    by_cases hfa : f a = true
    · cases k with
      | zero => simp at hc
      | succ j =>
        simp only [List.take_succ_cons, List.mem_cons] at hc
        rcases hc with rfl | hc
        · exact hfa
        · exact ih j (by simpa [List.takeWhile, hfa] using hk) c hc
    · simp only [Bool.not_eq_true] at hfa
      rw [List.takeWhile] at hk
      simp [hfa] at hk
      subst hk
      simp at hc

lemma greedySplits_sound {f : Char → Bool} {l d r : List Char}
    (h : (d, r) ∈ greedySplits f l) :
    l = d ++ r ∧ d ≠ [] ∧ ∀ c ∈ d, f c = true := by
  simp only [greedySplits, List.mem_map, List.mem_range] at h
  obtain ⟨i, hi, heq⟩ := h
  have hd : d = l.take ((l.takeWhile f).length - i) := by
    have := congrArg Prod.fst heq; simpa using this.symm
  have hr : r = l.drop ((l.takeWhile f).length - i) := by
    have := congrArg Prod.snd heq; simpa using this.symm
  subst hd; subst hr
  refine ⟨(List.take_append_drop _ _).symm, ?_, ?_⟩
  · have hlen : (l.takeWhile f).length ≤ l.length := (List.takeWhile_sublist f).length_le
    have hpos : 0 < (l.takeWhile f).length - i := by omega
    intro hnil
    have hlt : (l.take ((l.takeWhile f).length - i)).length = 0 := by
      rw [hnil]; rfl
    rw [List.length_take] at hlt
    omega
  · exact mem_take_takeWhile_sat l _ (by omega)

lemma greedySplits_complete {f : Char → Bool} {d r : List Char}
    (hd : d ≠ []) (hall : ∀ c ∈ d, f c = true) :
    (d, r) ∈ greedySplits f (d ++ r) := by
  have hn : ((d ++ r).takeWhile f).length = d.length + (r.takeWhile f).length := by
    rw [takeWhile_append_of_all r hall]; simp
  have hdlen : 0 < d.length := List.length_pos.mpr hd
  simp only [greedySplits, List.mem_map, List.mem_range]
  refine ⟨((d ++ r).takeWhile f).length - d.length, by omega, ?_⟩
  have hsub : ((d ++ r).takeWhile f).length -
      (((d ++ r).takeWhile f).length - d.length) = d.length := by omega
  rw [hsub, List.take_left, List.drop_left]

lemma stripCI_sound {p : List Char} :
    ∀ {l cap r : List Char}, stripCI p l = some (cap, r) →
      l = cap ++ r ∧ cap.map Char.toLower = p := by
  induction p with
  | nil =>
    intro l cap r h
    simp only [stripCI, Option.some.injEq, Prod.mk.injEq] at h
    obtain ⟨h1, h2⟩ := h
    subst h1; subst h2; simp
  | cons a p ih =>
    intro l cap r h
    cases l with
    | nil => simp [stripCI] at h
    | cons c cs =>
      simp only [stripCI] at h
      by_cases hc : c.toLower = a
      · rw [if_pos hc] at h
        cases hrec : stripCI p cs with
        | none => rw [hrec] at h; simp at h
        | some pr =>
          rw [hrec] at h
          obtain ⟨cap0, r0⟩ := pr
          simp only [Option.some.injEq, Prod.mk.injEq] at h
          obtain ⟨h1, h2⟩ := h
          obtain ⟨hl, hm⟩ := ih hrec
          subst h2
          rw [← h1]
          simp [hl, hm, hc]
      · rw [if_neg hc] at h; simp at h

lemma stripCI_complete {p : List Char} :
    ∀ {cap : List Char} (r : List Char), cap.map Char.toLower = p →
      stripCI p (cap ++ r) = some (cap, r) := by
  induction p with
  | nil =>
    intro cap r h
    have : cap = [] := by simpa using congrArg List.length h
    subst this
    simp [stripCI]
  | cons a p ih =>
    intro cap r h
    cases cap with
    | nil => simp at h
    | cons c cs =>
      simp only [List.map_cons, List.cons.injEq] at h
      obtain ⟨h1, h2⟩ := h
      simp only [List.cons_append, stripCI, if_pos h1]
      rw [show cs.append r = cs ++ r from rfl, ih r h2]

lemma anySplit_mem {l : List Char} {pr : Char × List Char} :
    pr ∈ anySplit l ↔ l = pr.1 :: pr.2 := by
  cases l with
  | nil => simp [anySplit]
  | cons c cs =>
    obtain ⟨a, b⟩ := pr
    simp [anySplit, eq_comm, And.comm]

lemma matchAlt_sound {l : List Char} {a : AltCand} (h : a ∈ matchAlt l) :
    ∃ b, l = b ++ a.rest ∧ AltLang b := by
  rcases List.mem_append.mp h with hmem | hmem
  · cases hdev : stripCI devPat l with
    | none => rw [hdev] at hmem; simp at hmem
    | some pr =>
      obtain ⟨cap, r⟩ := pr
      rw [hdev] at hmem
      simp only [List.mem_singleton] at hmem
      subst hmem
      obtain ⟨hl, hm⟩ := stripCI_sound hdev
      exact ⟨cap, hl, Or.inl hm⟩
  · cases hrc : stripCI rcPat l with
    | none => rw [hrc] at hmem; simp at hmem
    | some pr0 =>
      obtain ⟨rcCap, r1⟩ := pr0
      rw [hrc] at hmem
      obtain ⟨pr, hpr, hmem2⟩ := List.mem_flatMap.mp hmem
      obtain ⟨dr, hdr, hmem3⟩ := List.mem_map.mp hmem2
      obtain ⟨d1, d2⟩ := dr
      obtain ⟨hcs, hdne, hdall⟩ := greedySplits_sound hdr
      obtain ⟨hl, hm⟩ := stripCI_sound hrc
      subst hmem3
      refine ⟨rcCap ++ pr.1 :: d1, ?_, Or.inr ⟨rcCap, pr.1, d1, rfl, hm, hdne, hdall⟩⟩
      rw [hl, anySplit_mem.mp hpr, hcs]
      simp

lemma matchAlt_complete {b : List Char} (r : List Char) (hb : AltLang b) :
    ∃ a ∈ matchAlt (b ++ r), a.rest = r := by
  rcases hb with hdev | ⟨rcCap, c, d, hbe, hm, hdne, hdall⟩
  · refine ⟨⟨b, none, none, r⟩, ?_, rfl⟩
    apply List.mem_append_left
    rw [stripCI_complete r hdev]
    simp
  · refine ⟨⟨rcCap ++ c :: d, some rcCap, some d, r⟩, ?_, rfl⟩
    apply List.mem_append_right
    have hsplit : b ++ r = rcCap ++ (c :: (d ++ r)) := by rw [hbe]; simp
    rw [hsplit, stripCI_complete (c :: (d ++ r)) hm]
    apply List.mem_flatMap.mpr
    refine ⟨(c, d ++ r), by simp [anySplit], ?_⟩
    apply List.mem_map.mpr
    exact ⟨(d, r), greedySplits_complete hdne hdall, rfl⟩

lemma matchTail_sound {a : AltCand} {sc : SufCand} (h : sc ∈ matchTail a) :
    ∃ hx, a.rest = '+' :: (hx ++ sc.rest) ∧ HexStr hx ∧
      sc.g5 = a.g5 ∧ sc.g8 = a.g8 ∧ sc.g9 = a.g9 ∧ sc.g10 = hx := by
  unfold matchTail at h
  match hrest : a.rest with
  | [] => rw [hrest] at h; simp at h
  | c2 :: r2 =>
    rw [hrest] at h
    dsimp only at h
    by_cases hc2 : c2 = '+'
    · rw [if_pos hc2] at h
      obtain ⟨hr, hhr, hmem⟩ := List.mem_map.mp h
      obtain ⟨h1, h2⟩ := hr
      obtain ⟨hr2, hne, hall⟩ := greedySplits_sound hhr
      subst hmem
      exact ⟨h1, by rw [hc2, hr2], ⟨hne, hall⟩, rfl, rfl, rfl, rfl⟩
    · rw [if_neg hc2] at h; simp at h

lemma matchSuffix_sound {l : List Char} {sc : SufCand} (h : sc ∈ matchSuffix l) :
    ∃ suf, l = suf ++ sc.rest ∧ SuffixLang suf := by
  unfold matchSuffix at h
  match l with
  | [] => simp at h
  | c :: r =>
    dsimp only at h
    by_cases hc : c = '-'
    · rw [if_pos hc] at h
      obtain ⟨a, ha, hmem⟩ := List.mem_flatMap.mp h
      obtain ⟨hx, hrest, hhex, _, _, _, hg10⟩ := matchTail_sound hmem
      obtain ⟨b, hlb, hbl⟩ := matchAlt_sound ha
      refine ⟨'-' :: (b ++ '+' :: hx), ?_, ⟨b, hx, rfl, hbl, hhex⟩⟩
      rw [hc, hlb, hrest]
      simp
    · rw [if_neg hc] at h; simp at h

lemma matchSuffix_complete {suf : List Char} (r : List Char) (hs : SuffixLang suf) :
    ∃ sc ∈ matchSuffix (suf ++ r), sc.rest = r := by
  obtain ⟨b, hx, hse, hbl, hne, hall⟩ := hs
  subst hse
  obtain ⟨a, ha, harest⟩ := matchAlt_complete ('+' :: (hx ++ r)) hbl
  refine ⟨⟨a.g5, a.g8, a.g9, hx, r⟩, ?_, rfl⟩
  have hshape : ('-' :: (b ++ '+' :: hx)) ++ r = '-' :: (b ++ '+' :: (hx ++ r)) := by simp
  rw [hshape]
  simp only [matchSuffix, if_pos rfl]
  apply List.mem_flatMap.mpr
  refine ⟨a, ha, ?_⟩
  unfold matchTail
  rw [harest]
  simp only [if_pos rfl]
  apply List.mem_map.mpr
  exact ⟨(hx, r), greedySplits_complete hne hall, rfl⟩

lemma coreMatches_sound {l : List Char} {g : RegexGroups} (h : g ∈ coreMatches l) :
    CoreLang l := by
  match l with
  | [] => simp [coreMatches] at h
  | vc :: r0 =>
    unfold coreMatches at h
    dsimp only at h
    by_cases hv : vc.toLower = 'v'
    · rw [if_pos hv] at h
      obtain ⟨m1, hm1, h⟩ := List.mem_flatMap.mp h
      obtain ⟨maj, r1⟩ := m1
      obtain ⟨s1, hs1, h⟩ := List.mem_flatMap.mp h
      obtain ⟨m2, hm2, h⟩ := List.mem_flatMap.mp h
      obtain ⟨mi, r2⟩ := m2
      obtain ⟨s2, hs2, h⟩ := List.mem_flatMap.mp h
      obtain ⟨m3, hm3, h⟩ := List.mem_flatMap.mp h
      obtain ⟨pa, r3⟩ := m3
      obtain ⟨he1, hne1, hd1⟩ := greedySplits_sound hm1
      obtain ⟨he2, hne2, hd2⟩ := greedySplits_sound hm2
      obtain ⟨he3, hne3, hd3⟩ := greedySplits_sound hm3
      have hs1e := anySplit_mem.mp hs1
      have hs2e := anySplit_mem.mp hs2
      dsimp only at hs1e hs2e
      rcases List.mem_append.mp h with hsm | hns
      · obtain ⟨sc, hscf, _⟩ := List.mem_map.mp hsm
        obtain ⟨hsc, hle⟩ := List.mem_filter.mp hscf
        obtain ⟨suf, hsuf, hslang⟩ := matchSuffix_sound hsc
        dsimp only at hsuf
        refine ⟨vc, s1.1, s2.1, maj, mi, pa, suf, sc.rest, ?_, hv,
          ⟨hne1, hd1⟩, ⟨hne2, hd2⟩, ⟨hne3, hd3⟩, Or.inr hslang, hle⟩
        rw [he1, hs1e, he2, hs2e, he3, hsuf]
        simp
      · by_cases hle : lineEndB r3 = true
        · refine ⟨vc, s1.1, s2.1, maj, mi, pa, [], r3, ?_, hv,
            ⟨hne1, hd1⟩, ⟨hne2, hd2⟩, ⟨hne3, hd3⟩, Or.inl rfl, hle⟩
          rw [he1, hs1e, he2, hs2e, he3]
          simp
        · rw [if_neg hle] at hns
          simp at hns
    · rw [if_neg hv] at h
      simp at h

lemma coreMatches_complete {l : List Char} (h : CoreLang l) :
    ∃ g, g ∈ coreMatches l := by
  obtain ⟨vc, c1, c2, maj, mi, pa, suf, rest, he, hv, ⟨hne1, hd1⟩, ⟨hne2, hd2⟩,
    ⟨hne3, hd3⟩, hsuf, hle⟩ := h
  subst he
  unfold coreMatches
  dsimp only
  rw [if_pos hv]
  have hm1 : (maj, c1 :: (mi ++ c2 :: (pa ++ suf ++ rest))) ∈
      greedySplits Char.isDigit (maj ++ c1 :: (mi ++ c2 :: (pa ++ suf ++ rest))) :=
    greedySplits_complete hne1 hd1
  have hm2 : (mi, c2 :: (pa ++ suf ++ rest)) ∈
      greedySplits Char.isDigit (mi ++ c2 :: (pa ++ suf ++ rest)) :=
    greedySplits_complete hne2 hd2
  have hm3 : (pa, suf ++ rest) ∈ greedySplits Char.isDigit (pa ++ (suf ++ rest)) :=
    greedySplits_complete hne3 hd3
  rcases hsuf with hnil | hslang
  · subst hnil
    refine ⟨⟨maj, mi, pa, none, none, none, none⟩, ?_⟩
    apply List.mem_flatMap.mpr
    refine ⟨(maj, c1 :: (mi ++ c2 :: (pa ++ [] ++ rest))), hm1, ?_⟩
    apply List.mem_flatMap.mpr
    refine ⟨(c1, mi ++ c2 :: (pa ++ [] ++ rest)), by simp [anySplit], ?_⟩
    apply List.mem_flatMap.mpr
    refine ⟨(mi, c2 :: (pa ++ [] ++ rest)), by simpa using hm2, ?_⟩
    apply List.mem_flatMap.mpr
    refine ⟨(c2, pa ++ [] ++ rest), by simp [anySplit], ?_⟩
    apply List.mem_flatMap.mpr
    refine ⟨(pa, rest), by simpa using hm3, ?_⟩
    apply List.mem_append_right
    rw [if_pos hle]
    simp
  · obtain ⟨sc, hsc, hscrest⟩ := matchSuffix_complete rest hslang
    refine ⟨⟨maj, mi, pa, some sc.g5, sc.g8, sc.g9, some sc.g10⟩, ?_⟩
    apply List.mem_flatMap.mpr
    refine ⟨(maj, c1 :: (mi ++ c2 :: (pa ++ suf ++ rest))), hm1, ?_⟩
    apply List.mem_flatMap.mpr
    refine ⟨(c1, mi ++ c2 :: (pa ++ suf ++ rest)), by simp [anySplit], ?_⟩
    apply List.mem_flatMap.mpr
    refine ⟨(mi, c2 :: (pa ++ suf ++ rest)), by simpa using hm2, ?_⟩
    apply List.mem_flatMap.mpr
    refine ⟨(c2, pa ++ suf ++ rest), by simp [anySplit], ?_⟩
    apply List.mem_flatMap.mpr
    refine ⟨(pa, suf ++ rest), by simpa [List.append_assoc] using hm3, ?_⟩
    apply List.mem_append_left
    apply List.mem_map.mpr
    refine ⟨sc, List.mem_filter.mpr ⟨hsc, ?_⟩, rfl⟩
    rw [hscrest]
    exact hle

lemma lineStartsGo_mem {l x : List Char} :
    x ∈ lineStartsGo l ↔ ∃ pre, l = pre ++ '\n' :: x := by
  induction l with
  | nil => simp [lineStartsGo]
  | cons c cs ih =>
    unfold lineStartsGo
    by_cases hc : c = '\n'
    · rw [if_pos hc]
      subst hc
      simp only [List.mem_cons, ih]
      constructor
      · rintro (rfl | ⟨pre, rfl⟩)
        · exact ⟨[], rfl⟩
        · exact ⟨'\n' :: pre, rfl⟩
      · rintro ⟨pre, hpre⟩
        cases pre with
        | nil => simp at hpre; exact Or.inl hpre.symm
        | cons p ps =>
          simp only [List.cons_append, List.cons.injEq] at hpre
          exact Or.inr ⟨ps, hpre.2⟩
    · rw [if_neg hc, ih]
      constructor
      · rintro ⟨pre, rfl⟩
        exact ⟨c :: pre, rfl⟩
      · rintro ⟨pre, hpre⟩
        cases pre with
        | nil => simp only [List.nil_append, List.cons.injEq] at hpre; exact absurd hpre.1 hc
        | cons p ps =>
          simp only [List.cons_append, List.cons.injEq] at hpre
          exact ⟨ps, hpre.2⟩

lemma head?_isSome_iff {α : Type} {l : List α} : l.head?.isSome = true ↔ l ≠ [] := by
  cases l <;> simp

/-! ## Bump-scan characterization -/

lemma scanCommit_eq (f : BumpFlags) (m : String) :
    scanCommit f m =
      ⟨f.hasPatch || patchPrefixB m, f.hasMinor || minorPrefixB m,
        f.hasMajor || majorPrefixB m⟩ := by
  unfold scanCommit patchPrefixB minorPrefixB majorPrefixB
  obtain ⟨p, mi, ma⟩ := f
  dsimp only
  by_cases h1 : (startsWithS (normMsg m) "fix" || startsWithS (normMsg m) "chore" ||
      startsWithS (normMsg m) "refactor" || startsWithS (normMsg m) "task") = true <;>
    by_cases h2 : startsWithS (normMsg m) "feat" = true <;>
    by_cases h3 : startsWithS (normMsg m) "breaking" = true <;>
    simp_all [Bool.or_assoc]

lemma scanCommits_eq (msgs : List String) :
    scanCommits msgs =
      ⟨msgs.any patchPrefixB, msgs.any minorPrefixB, msgs.any majorPrefixB⟩ := by
  have main : ∀ (msgs : List String) (f : BumpFlags),
      msgs.foldl scanCommit f =
        ⟨f.hasPatch || msgs.any patchPrefixB, f.hasMinor || msgs.any minorPrefixB,
          f.hasMajor || msgs.any majorPrefixB⟩ := by
    intro msgs
    induction msgs with
    | nil => intro f; simp
    | cons m msgs ih =>
      intro f
      simp only [List.foldl_cons, ih, scanCommit_eq, List.any_cons]
      simp [Bool.or_assoc]
  simpa using main msgs ⟨false, false, false⟩

/-! ## Baseline selection: first match in a descending catalog is maximal -/

/-- The releaseDate value of a catalog entry (defined dates only). -/
def rdV (r : UsefulReleaseData) : Int := r.releaseDate.getD 0

lemma find?_max_of_sorted {p : UsefulReleaseData → Bool} :
    ∀ (l : List UsefulReleaseData), l.Pairwise (fun a b => rdV b ≤ rdV a) →
      ∀ r, l.find? p = some r → ∀ q ∈ l, p q = true → rdV q ≤ rdV r := by
  intro l
  induction l with
  | nil => intro _ r hr; simp at hr
  | cons a l ih =>
    intro hs r hr q hq hpq
    rcases List.pairwise_cons.mp hs with ⟨ha, hl⟩
    by_cases hpa : p a = true
    · rw [List.find?_cons_of_pos _ hpa] at hr
      injection hr with hr
      subst hr
      rcases List.mem_cons.mp hq with rfl | hql
      · exact le_refl _
      · exact ha q hql
    · rw [List.find?_cons_of_neg _ (by simpa using hpa)] at hr
      rcases List.mem_cons.mp hq with rfl | hql
      · exact absurd hpq hpa
      · exact ih hl r hr q hql hpq

/-! ## Pagination loop: a stopping page ends the loop with all edges -/

/-- Claim C7 (amended): the pagination loop terminates at the first page
reporting `hasNextPage = false` — also with zero edges overall and with
intermediate `hasNextPage = true` pages carrying zero edges — and
accumulates every non-null edge in page order.  There is, however, no
cursor-stall detection (see the counterexample): identical consecutive
cursors with no progress do not raise an error, the loop simply issues
the next fetch. -/
theorem C7_pagination :
    ∀ (l1 : List PageResp) (p : PageResp) (l2 : List PageResp),
      (∀ q ∈ l1, q.hasErrors = false ∧ q.hasNextPage = true) →
      p.hasErrors = false → p.hasNextPage = false →
      getReleasesRun (l1 ++ p :: l2) =
        (List.replicate (l1.length + 1) (Event.netCall "GetReleases"),
          some ((l1 ++ [p]).flatMap (fun q => q.edges.filterMap id))) := by
  intro l1
  induction l1 with
  | nil =>
    intro p l2 _ hpe hpn
    simp only [List.nil_append, getReleasesRun, hpe, hpn]
    simp
  | cons q l1 ih =>
    intro p l2 hall hpe hpn
    obtain ⟨hqe, hqn⟩ := hall q (List.mem_cons_self _ _)
    have hrest := ih p l2 (fun x hx => hall x (List.mem_cons_of_mem _ hx)) hpe hpn
    simp only [List.cons_append, getReleasesRun, hqe, hqn]
    simp only [Bool.false_eq_true, if_false, if_true]
    simp [hrest, List.replicate_succ]

/-! ## String plumbing -/

lemma string_append_left_cancel {s t u : String} (h : s ++ t = s ++ u) : t = u := by
  have hd : s.data ++ t.data = s.data ++ u.data := by
    have h1 := congrArg String.data h
    simpa [String.data_append] using h1
  have := List.append_cancel_left hd
  cases t; cases u; simp_all

lemma mem_sectionEntries {tok m : String} {msgs : List String}
    (h : ("- " ++ m) ∈ sectionEntries tok msgs) : startsWithS (normMsg m) tok = true := by
  obtain ⟨m2, hm2, heq⟩ := List.mem_map.mp h
  have : m2 = m := string_append_left_cancel heq
  subst this
  exact (List.mem_filter.mp hm2).2

/-! ## Bump bridge and run unfolding -/

lemma bumpVersion_scan (t : Nat × Nat × Nat) (msgs : List String) :
    bumpVersion t (scanCommits msgs) =
      if msgs.any majorPrefixB then (t.1 + 1, 0, 0)
      else if msgs.any minorPrefixB then (t.1, t.2.1 + 1, 0)
      else if msgs.any patchPrefixB then (t.1, t.2.1, t.2.2 + 1)
      else t := by
  rw [scanCommits_eq]
  rfl

lemma run_eq_of_ok (env : RunEnv) (world : RunWorld) {ref sha : String}
    {evs : List Event} {nodes : List ReleaseNode} {date : Int}
    {hd hp : List String}
    (h1 : env.githubRef = some ref) (h2 : env.githubSha = some sha)
    (h3 : (resolveToken env == "") = false)
    (h4 : getReleasesRun world.releasePages = (evs, some nodes))
    (h5 : world.commitDate = Except.ok date)
    (h6 : world.compareDevMsgs = Except.ok hd)
    (h7 : world.compareProdMsgs = Except.ok hp) :
    run env world = evs ++ [Event.netCall "getCommit", Event.netCall "compareCommits",
      Event.netCall "compareCommits"] ++
      runCompute env (buildCatalog nodes) date sha hd hp := by
  unfold run
  rw [h1, h2, h3]
  simp only [Bool.false_eq_true, if_false]
  rw [h4]
  simp only []
  rw [h5, h6, h7]
  simp [List.append_assoc]

/-! # Claim theorems -/

/-- Claim C10: for every development-channel bump, the computed
(major, minor, patch) triple is lexicographically at least the
development baseline's triple: a component is reset to 0 only when a
strictly higher-order component is incremented. -/
theorem C10_bump_monotone (t : Nat × Nat × Nat) (msgs : List String) :
    lexLe t (bumpVersion t (scanCommits msgs)) := by
  obtain ⟨a, b, c⟩ := t
  unfold bumpVersion lexLe
  split_ifs <;> dsimp only <;> omega

/-- Counterexample to claim C1 as stated: the message
`"breaking change"` classifies as none of the six colon-token categories
(it lands in no changelog section), so the claim predicts no numeric
change, yet the development bump raises the major number. -/
theorem C1_counterexample :
    anyChanges ["breaking change"] = false ∧
    changelogBody ["breaking change"] = "" ∧
    bumpVersion (1, 2, 3) (scanCommits ["breaking change"]) = (2, 0, 0) := by
  decide

/-- Counterexample to claim C4 as stated: `"fixture update"` starts with
none of the colon tokens, appears in no changelog section, and yet it
drives a patch bump, because the bump scan tests the colonless prefix
`fix`. -/
theorem C4_counterexample :
    anyChanges ["fixture update"] = false ∧
    changelogBody ["fixture update"] = "" ∧
    bumpVersion (1, 2, 3) (scanCommits ["fixture update"]) = (1, 2, 4) := by
  decide

/-- Claim C4 (amended): a commit contributes to the version-bump decision
exactly when its trimmed lower-cased message starts with one of the
*colonless* prefixes `breaking`, `feat`, `fix`, `chore`, `refactor`,
`task`; changelog membership, by contrast, requires the colon-included
token of the section. -/
theorem C4_classification :
    (∀ (v : Nat × Nat × Nat) (msgs : List String),
      (∀ m ∈ msgs, patchPrefixB m = false ∧ minorPrefixB m = false ∧
        majorPrefixB m = false) →
      bumpVersion v (scanCommits msgs) = v) ∧
    (∀ (tok m : String) (msgs : List String),
      startsWithS (normMsg m) tok = false → ("- " ++ m) ∉ sectionEntries tok msgs) := by
  constructor
  · intro v msgs h
    rw [bumpVersion_scan]
    have hmaj : msgs.any majorPrefixB = false := by
      simp only [List.any_eq_false]
      intro m hm
      simp [(h m hm).2.2]
    have hmin : msgs.any minorPrefixB = false := by
      simp only [List.any_eq_false]
      intro m hm
      simp [(h m hm).2.1]
    have hpat : msgs.any patchPrefixB = false := by
      simp only [List.any_eq_false]
      intro m hm
      simp [(h m hm).1]
    simp [hmaj, hmin, hpat]
  · intro tok m msgs hns hmem
    exact absurd (mem_sectionEntries hmem) (by simp [hns])

/-- Witness for C4: a commit with no recognised prefix at all changes
nothing and lands in no section. -/
theorem C4_witness :
    bumpVersion (1, 2, 3) (scanCommits ["hello world"]) = (1, 2, 3) ∧
    ("- hello world") ∉ sectionEntries "fix:" ["hello world"] :=
  ⟨C4_classification.1 (1, 2, 3) ["hello world"] (by decide),
   C4_classification.2 "fix:" "hello world" ["hello world"] (by decide)⟩

/-- Witness for C7: the three-page source (2 edges, 2 edges of which one
is null, 0 edges with `hasNextPage = false`) yields one fetch per page
and the three non-null nodes in page order. -/
theorem C7_witness :
    (∀ q ∈ [pageA, pageB], q.hasErrors = false ∧ q.hasNextPage = true) ∧
    getReleasesRun [pageA, pageB, pageC] =
      (List.replicate 3 (Event.netCall "GetReleases"),
        some [devNode, prodNode, rcNode]) :=
  ⟨by decide, C7_pagination [pageA, pageB] pageC [] (by decide) rfl rfl⟩

/-- Counterexample to claim C7 as stated: two consecutive pages with the
identical cursor and zero edges are *not* reported as a fatal stall — no
failure event is emitted; the loop has consumed both pages and issued a
third fetch (the `none` result: it is still waiting for more pages). -/
theorem C7_counterexample :
    stallPage.endCursor = some "cursorA" ∧ stallPage.edges = [] ∧
    stallPage.hasNextPage = true ∧
    getReleasesRun [stallPage, stallPage] =
      ([Event.netCall "GetReleases", Event.netCall "GetReleases",
        Event.netCall "GetReleases"], none) := by
  decide

/-- Claim C5 (amended): `extractVersionInfo` succeeds exactly on the
strings accepted by the regex's real language: some line-anchored segment
of the form `v<digits><sep><digits><sep><digits>` optionally followed by
`-development+<hex>` or `-rc<sep><digits>+<hex>`, where every `<sep>` is
an arbitrary single character (the regex's dots are unescaped), the `v`,
the keywords and the hex digits are case-insensitive, and the match may
start after any newline and end before one. -/
theorem C5_parse_grammar (s : String) :
    (extractVersionInfo s).isSome = true ↔ MatchesGrammar s := by
  unfold extractVersionInfo regexMatch
  rw [show ∀ o : Option RegexGroups, (o.map groupsToInfo).isSome = o.isSome from
    fun o => by cases o <;> rfl, head?_isSome_iff]
  constructor
  · intro hne
    obtain ⟨g, hg⟩ := List.exists_mem_of_ne_nil _ hne
    obtain ⟨x, hx, hgx⟩ := List.mem_flatMap.mp hg
    rcases List.mem_cons.mp hx with heq | hgo
    · exact ⟨x, Or.inl heq.symm, coreMatches_sound hgx⟩
    · exact ⟨x, Or.inr (lineStartsGo_mem.mp hgo), coreMatches_sound hgx⟩
  · rintro ⟨x, hx, hcore⟩
    obtain ⟨g, hg⟩ := coreMatches_complete hcore
    apply List.ne_nil_of_mem (a := g)
    apply List.mem_flatMap.mpr
    refine ⟨x, ?_, hg⟩
    rcases hx with rfl | hpre
    · exact List.mem_cons_self _ _
    · exact List.mem_cons_of_mem _ (lineStartsGo_mem.mpr hpre)

/-- Counterexample to claim C5 as stated: `"v1a2b3"` contains no dot at
all — it does not match the grammar `v<major>.<minor>.<patch>` the claim
describes — and yet the parser accepts it as version 1.2.3, because the
dots in the source regex are unescaped and match any character. -/
theorem C5_counterexample :
    extractVersionInfo "v1a2b3" = some ⟨1, 2, 3, "production", none, none⟩ ∧
    "v1a2b3".toList.contains '.' = false := by
  decide

/-- Claim C3: on a catalog sorted by descending releaseDate (the release
query's ordering, modelled from the spec), `lastProductionRelease` yields
the most recently updated non-draft production release published at or
before the triggering timestamp, and `lastDevRelease` the most recently
updated non-draft development release whose *tag commit's authored time*
is at or before the timestamp; each falls back to its synthetic zero
baseline when no release qualifies. -/
theorem C3_baseline_selection (releases : List UsefulReleaseData) (date : Int)
    (hsorted : releases.Pairwise (fun a b => rdV b ≤ rdV a)) :
    ((∀ r ∈ releases, prodBaselinePred date r = false) →
        lastProductionRelease releases date = zeroProdBaseline) ∧
    (∀ r, releases.find? (prodBaselinePred date) = some r →
        lastProductionRelease releases date = r ∧ r ∈ releases ∧
          prodBaselinePred date r = true ∧
          ∀ q ∈ releases, prodBaselinePred date q = true → rdV q ≤ rdV r) ∧
    ((∀ r ∈ releases, devBaselinePred date r = false) →
        lastDevRelease releases date = zeroDevBaseline) ∧
    (∀ r, releases.find? (devBaselinePred date) = some r →
        lastDevRelease releases date = r ∧ r ∈ releases ∧
          devBaselinePred date r = true ∧
          ∀ q ∈ releases, devBaselinePred date q = true → rdV q ≤ rdV r) := by
  refine ⟨?_, ?_, ?_, ?_⟩
  · intro hnone
    unfold lastProductionRelease
    rw [List.find?_eq_none.mpr (fun x hx => by simp [hnone x hx])]
    rfl
  · intro r hr
    refine ⟨by unfold lastProductionRelease; rw [hr]; rfl,
      List.mem_of_find?_eq_some hr, List.find?_some hr,
      find?_max_of_sorted releases hsorted r hr⟩
  · intro hnone
    unfold lastDevRelease
    rw [List.find?_eq_none.mpr (fun x hx => by simp [hnone x hx])]
    rfl
  · intro r hr
    refine ⟨by unfold lastDevRelease; rw [hr]; rfl,
      List.mem_of_find?_eq_some hr, List.find?_some hr,
      find?_max_of_sorted releases hsorted r hr⟩

/-- Witness for C3: in a three-release catalog sorted by descending
releaseDate, the production baseline at time 45 skips the newer
production release published at 50 and selects the one published at 30,
while the development baseline selects the development release whose tag
was authored at 39. -/
theorem C3_witness :
    lastProductionRelease catalogW 45 = prodRelOld ∧
    lastDevRelease catalogW 45 = devRelMid :=
  ⟨((C3_baseline_selection catalogW 45 (by decide)).2.1 prodRelOld (by decide)).1,
   ((C3_baseline_selection catalogW 45 (by decide)).2.2.2 devRelMid (by decide)).1⟩

/-- Claim C9 (amended): a missing `GITHUB_REF`, a missing `GITHUB_SHA`
(the triggering commit hash) or an empty resolved access token each abort
the run as a configuration failure before any network activity — the
whole trace is the single failure report.  (A missing release channel is
*not* checked: it is silently defaulted, see the counterexample; and the
triggering timestamp is fetched from the platform, not configuration.) -/
theorem C9_config_checks :
    (∀ (env : RunEnv) (world : RunWorld), env.githubRef = none →
      run env world = [Event.failedMsg "Missing GITHUB_REF"]) ∧
    (∀ (env : RunEnv) (world : RunWorld) (ref : String), env.githubRef = some ref →
      env.githubSha = none → run env world = [Event.failedMsg "Missing GITHUB_SHA"]) ∧
    (∀ (env : RunEnv) (world : RunWorld) (ref sha : String), env.githubRef = some ref →
      env.githubSha = some sha → resolveToken env = "" →
      run env world = [Event.failedMsg "Missing GITHUB_TOKEN"]) := by
  refine ⟨?_, ?_, ?_⟩
  · intro env world h1
    unfold run
    rw [h1]
  · intro env world ref h1 h2
    unfold run
    rw [h1, h2]
  · intro env world ref sha h1 h2 h3
    unfold run
    rw [h1, h2, h3]
    simp

/-- Witness for C9: with `GITHUB_REF` unset the run's whole trace is the
single configuration failure, so no network request was made. -/
theorem C9_witness :
    run envNoRef worldNoChannel = [Event.failedMsg "Missing GITHUB_REF"] :=
  C9_config_checks.1 envNoRef worldNoChannel rfl

/-- Counterexample to claim C9 as stated: with the target channel missing
(environment variable unset, action input empty) the run does not fail —
it performs network activity and completes without a single failure
event. -/
theorem C9_counterexample :
    resolveReleaseType envNoChannel = "" ∧
    Event.netCall "GetReleases" ∈ run envNoChannel worldNoChannel ∧
    (run envNoChannel worldNoChannel).all
      (fun e => match e with
        | Event.failedMsg _ => false
        | _ => true) = true := by
  decide

/-- Claim C6 (code bug): when the release fetch reports an error payload
the source marks the workflow failed but *keeps running* with an empty
catalog — the trace contains the failure report *and* a version output
and a release creation, contradicting the abort the failure message
announces. -/
theorem C6_error_continues :
    Event.failedMsg "Workflow failed! Error getting previous releases"
      ∈ run envFetchErr worldFetchErr ∧
    Event.output "version" "v0.0.0" ∈ run envFetchErr worldFetchErr ∧
    Event.netCall "createRelease" ∈ run envFetchErr worldFetchErr := by
  decide

set_option maxRecDepth 4000 in
/-- Claim C8 (code bug): a development-mode changelog for the single
commit `"task: t"` opens a Tasks section but renders the *chore* list
under it — the task entry `- task: t` appears nowhere in the output. -/
theorem C8_tasks_section :
    generateChangelog "development" ["task: t"] [] =
      "# Changes since last development release\n\n### Tasks\n\n\n# All changes since last production release\n\nGeneral bug fixes and improvements\n" ∧
    ¬ List.IsInfix "- task: t".toList
      (generateChangelog "development" ["task: t"] []).toList := by
  constructor
  · decide
  · decide

/-- Claim C1 (amended): on the development channel, the emitted version
number applies the bump to the development baseline's (major, minor,
patch): if any commit of the dev-baseline range starts (trimmed,
lower-cased) with `breaking` — colon not required — major increments and
minor/patch reset; else if any starts with `feat`, minor increments and
patch resets; else if any starts with `fix`, `chore`, `refactor` or
`task`, patch increments; else the numbers are unchanged.  Breaking
dominates regardless of the other commits present. -/
theorem C1_dev_bump (env : RunEnv) (world : RunWorld) {ref sha : String}
    {evs : List Event} {nodes : List ReleaseNode} {date : Int}
    {hd hp : List String}
    (h1 : env.githubRef = some ref) (h2 : env.githubSha = some sha)
    (h3 : (resolveToken env == "") = false)
    (h4 : getReleasesRun world.releasePages = (evs, some nodes))
    (h5 : world.commitDate = Except.ok date)
    (h6 : world.compareDevMsgs = Except.ok hd)
    (h7 : world.compareProdMsgs = Except.ok hp)
    (h8 : resolveReleaseType env = "development") :
    Event.output "version"
      (vstr (if hd.any majorPrefixB then
          ((lastDevRelease (buildCatalog nodes) date).versionInfo.major + 1, 0, 0)
        else if hd.any minorPrefixB then
          ((lastDevRelease (buildCatalog nodes) date).versionInfo.major,
            (lastDevRelease (buildCatalog nodes) date).versionInfo.minor + 1, 0)
        else if hd.any patchPrefixB then
          ((lastDevRelease (buildCatalog nodes) date).versionInfo.major,
            (lastDevRelease (buildCatalog nodes) date).versionInfo.minor,
            (lastDevRelease (buildCatalog nodes) date).versionInfo.patch + 1)
        else
          ((lastDevRelease (buildCatalog nodes) date).versionInfo.major,
            (lastDevRelease (buildCatalog nodes) date).versionInfo.minor,
            (lastDevRelease (buildCatalog nodes) date).versionInfo.patch)) ++
        ("-development+" ++ takeChars sha 7)) ∈ run env world := by
  rw [run_eq_of_ok env world h1 h2 h3 h4 h5 h6 h7]
  apply List.mem_append_right
  unfold runCompute
  rw [h8]
  simp only [beq_self_eq_true, if_pos, bumpVersion_scan, String.append_assoc]
  simp

/-- Witness for C1: development baseline `v1.2.3`, commit range
`["fix: a", "feat: b", "chore: c"]` → the emitted version is
`v1.3.0-development+abcdef1` (minor bump dominates the patch-level
commits). -/
theorem C1_witness :
    Event.output "version" "v1.3.0-development+abcdef1" ∈ run envDev worldDev :=
  C1_dev_bump envDev worldDev rfl rfl rfl rfl rfl rfl rfl rfl

lemma rcCount_eq (releases : List UsefulReleaseData) (prodDate : Option Int)
    (date : Int) :
    rcCount releases prodDate date =
      (releases.filter fun r =>
        (match extractVersionInfo r.name with
         | some vi => vi.releaseType == "rc"
         | none => false) &&
        (match r.releaseDate, prodDate with
         | some rd, some pd => decide (pd < rd) && decide (rd ≤ date + 1)
         | _, _ => false)).length := by
  unfold rcCount
  congr 1
  apply List.filter_congr
  intro r _
  cases hvi : extractVersionInfo r.name with
  | none => simp
  | some vi =>
    cases hrd : r.releaseDate with
    | none => simp [rcWindow]
    | some rd =>
      cases hpd : prodDate with
      | none => simp [rcWindow]
      | some pd => simp [rcWindow]

/-- Claim C2 (amended): on the rc channel the emitted version number
reuses the development baseline's major.minor.patch verbatim — it is not
recomputed from commits (the expression below does not mention the
fetched commit ranges at all) — and the suffix is
`-rc.<ordinal>+<7-char short hash>` where the ordinal is 1 plus the
number of catalog releases that re-parse to releaseType rc, whose
releaseDate is strictly after the production baseline's release date and
at most one millisecond after the triggering commit's timestamp
(`releaseDate ≤ date + 1`, not `≤ date` as claimed). -/
theorem C2_rc_version (env : RunEnv) (world : RunWorld) {ref sha : String}
    {evs : List Event} {nodes : List ReleaseNode} {date : Int}
    {hd hp : List String}
    (h1 : env.githubRef = some ref) (h2 : env.githubSha = some sha)
    (h3 : (resolveToken env == "") = false)
    (h4 : getReleasesRun world.releasePages = (evs, some nodes))
    (h5 : world.commitDate = Except.ok date)
    (h6 : world.compareDevMsgs = Except.ok hd)
    (h7 : world.compareProdMsgs = Except.ok hp)
    (h8 : resolveReleaseType env = "rc") :
    Event.output "version"
      (versionNumberString (lastDevRelease (buildCatalog nodes) date).versionInfo ++
        ("-rc." ++
          toString
            (((buildCatalog nodes).filter fun r =>
                (match extractVersionInfo r.name with
                 | some vi => vi.releaseType == "rc"
                 | none => false) &&
                (match r.releaseDate,
                    (lastProductionRelease (buildCatalog nodes) date).releaseDate with
                 | some rd, some pd => decide (pd < rd) && decide (rd ≤ date + 1)
                 | _, _ => false)).length + 1) ++
          ("+" ++ takeChars sha 7))) ∈ run env world := by
  rw [run_eq_of_ok env world h1 h2 h3 h4 h5 h6 h7]
  apply List.mem_append_right
  unfold runCompute rcMetadata
  rw [h8]
  simp only [show (("rc" : String) == "development") = false from rfl,
    Bool.false_eq_true, if_false, show (("rc" : String) == "rc") = true from rfl,
    if_true, String.append_assoc, rcCount_eq]
  simp

/-- Witness for C2: with development baseline `v1.2.3`, production
baseline published at 5, one rc release published at 101 and the
triggering commit at 100, the emitted version is `v1.2.3-rc.2+abcdef1`. -/
theorem C2_witness :
    Event.output "version" "v1.2.3-rc.2+abcdef1" ∈ run envRc worldRc :=
  C2_rc_version envRc worldRc rfl rfl rfl rfl rfl rfl rfl rfl

/-- Counterexample to claim C2 as stated: the rc release published at 101
— one millisecond *after* the triggering timestamp 100 — is counted by
the source (`releaseDate <= date + 1`), so the run emits ordinal 2, while
the claim's window (releaseDate no later than the triggering timestamp)
counts zero such releases and predicts ordinal 1. -/
theorem C2_counterexample :
    Event.output "version" "v1.2.3-rc.2+abcdef1" ∈ run envRc worldRc ∧
    ((buildCatalog [devNode, rcNode, prodNode]).filter fun r =>
      (match extractVersionInfo r.name with
       | some vi => vi.releaseType == "rc"
       | none => false) &&
      (match r.releaseDate with
       | some rd => decide ((5 : Int) < rd) && decide (rd ≤ (100 : Int))
       | none => false)).length = 0 := by
  decide
